import Mathlib

/-!
Shallow embedding of the core of the `bitcoin-mining-pool` repository.

The definitions below are translated from `src/core/pool.py` and
`src/core/stratum_server.py`.  Conventions used throughout:

* Byte strings are `List ℕ` (each entry a byte value).
* Python hex strings stay `String`; `int(s, 16)` and `bytes.fromhex`
  are modelled on the plain hex-digit fragment by `int16?` / `fromhex?`
  (returning `none` where Python raises `ValueError`).
* Python floats are modelled exactly as rational values of the pair
  type `Q` below; binary64 division is `fl` (round to nearest, ties to
  even, 53-bit significand), applied where CPython performs a float
  division, and overflow to infinity is detected by comparison with
  `2 ^ 1024`.
* `double_sha256` is an opaque parameter `dsha : List ℕ → List ℕ` of
  every function that hashes; no claim below depends on the concrete
  compression function.
* Fallible Python code (exceptions) returns `Option`; exceptions that
  `validate_share` converts to a result dictionary are mapped to the
  same reason strings the source produces.
* Impure inputs (wall-clock time, the configuration, the bech32/base58
  collaborator library) are explicit parameters.
-/

set_option maxRecDepth 40000

namespace MiningPool

/-- Value of one hex digit character, as accepted by Python `int(s, 16)`
and `bytes.fromhex` (digits `0`-`9`, `a`-`f`, `A`-`F`). -/
def hexDigitVal? (c : Char) : Option ℕ :=
  if '0' ≤ c ∧ c ≤ '9' then some (c.toNat - '0'.toNat)
  else if 'a' ≤ c ∧ c ≤ 'f' then some (c.toNat - 'a'.toNat + 10)
  else if 'A' ≤ c ∧ c ≤ 'F' then some (c.toNat - 'A'.toNat + 10)
  else none

/-- Accumulator loop of `int(s, 16)`. -/
def hexValAux : List Char → ℕ → Option ℕ
  | [], acc => some acc
  | c :: cs, acc =>
    match hexDigitVal? c with
    | some d => hexValAux cs (16 * acc + d)
    | none => none

/-- Python `int(s, 16)` on the plain hex-digit fragment: at least one
digit, every character a hex digit; otherwise `ValueError` (`none`). -/
def int16? (s : String) : Option ℕ :=
  match s.data with
  | [] => none
  | cs => hexValAux cs 0

/-- Pair loop of Python `bytes.fromhex`: an even number of hex digits,
two digits per byte; otherwise `ValueError` (`none`). -/
def fromhexAux : List Char → Option (List ℕ)
  | [] => some []
  | c1 :: c2 :: cs =>
    match hexDigitVal? c1, hexDigitVal? c2, fromhexAux cs with
    | some d1, some d2, some rest => some ((16 * d1 + d2) :: rest)
    | _, _, _ => none
  | [_] => none

/-- Python `bytes.fromhex` on a `String`. -/
def fromhex? (s : String) : Option (List ℕ) := fromhexAux s.data

/-- Lowercase hex character of a value below 16 (as produced by Python
`bytes.hex()` / `format(n, 'x')`). -/
def hexChar (n : ℕ) : Char :=
  if n < 10 then Char.ofNat ('0'.toNat + n) else Char.ofNat ('a'.toNat + (n - 10))

/-- Python `bytes.hex()`: two lowercase hex digits per byte. -/
def bytesToHex (bs : List ℕ) : String :=
  ⟨(bs.map (fun b => [hexChar (b / 16), hexChar (b % 16)])).flatten⟩

/-- Digit loop of Python `format(n, 'x')` (fuel-driven, fuel `n` is
enough since the digit count is at most `n`). -/
def natHexAux : ℕ → ℕ → List Char
  | 0, _ => []
  | fuel + 1, n => if n = 0 then [] else natHexAux fuel (n / 16) ++ [hexChar (n % 16)]

/-- Python `format(n, '0<width>x')`: lowercase hex, left-padded with
zeros to `width` characters. -/
def format_hex (width n : ℕ) : String :=
  let ds := if n = 0 then ['0'] else natHexAux n n
  ⟨List.replicate (width - ds.length) '0' ++ ds⟩

/-- `flip_bytes` of `Pool.validate_share`: reverse the bytes inside each
4-byte word (`data[i:i+4][::-1]` for `i = 0, 4, 8, ...`); a final chunk
shorter than 4 bytes is reversed as-is, exactly as the Python slice
produces. -/
def flip_bytes : List ℕ → List ℕ
  | [] => []
  | [a] => [a]
  | [a, b] => [b, a]
  | [a, b, c] => [c, b, a]
  | a :: b :: c :: d :: rest => d :: c :: b :: a :: flip_bytes rest

/-- `n.to_bytes(k, 'little')` / the fixed-width `struct.pack` codes
(`<H` is `leBytes 2`, `<I` is `leBytes 4`, `<Q` is `leBytes 8`). -/
def leBytes : ℕ → ℕ → List ℕ
  | 0, _ => []
  | k + 1, n => n % 256 :: leBytes k (n / 256)

/-- `n.to_bytes(k, 'big')`. -/
def beBytes (k n : ℕ) : List ℕ := (leBytes k n).reverse

/-- `int.from_bytes(bs, byteorder='little')`. -/
def leNat : List ℕ → ℕ
  | [] => 0
  | b :: bs => b + 256 * leNat bs

/-- ASCII byte values of a Python byte-string literal. -/
def asciiBytes (s : String) : List ℕ := s.data.map Char.toNat

/-- Exact rational value of a Python number: numerator and positive
denominator, kept unnormalised.  Every finite binary64 float is such a
value, and all arithmetic the pool performs on floats is modelled
exactly on this type. -/
structure Q where
  num : ℤ
  den : ℕ
deriving DecidableEq

/-- Embed a natural number. -/
def Q.ofNat (n : ℕ) : Q := ⟨n, 1⟩

/-- Embed an integer. -/
def Q.ofInt (n : ℤ) : Q := ⟨n, 1⟩

instance : LE Q := ⟨fun a b => a.num * (b.den : ℤ) ≤ b.num * (a.den : ℤ)⟩

instance : LT Q := ⟨fun a b => a.num * (b.den : ℤ) < b.num * (a.den : ℤ)⟩

instance (a b : Q) : Decidable (a ≤ b) :=
  inferInstanceAs (Decidable (a.num * (b.den : ℤ) ≤ b.num * (a.den : ℤ)))

instance (a b : Q) : Decidable (a < b) :=
  inferInstanceAs (Decidable (a.num * (b.den : ℤ) < b.num * (a.den : ℤ)))

/-- Exact product. -/
def Q.mul (a b : Q) : Q := ⟨a.num * b.num, a.den * b.den⟩

/-- Exact difference. -/
def Q.sub (a b : Q) : Q := ⟨a.num * (b.den : ℤ) - b.num * (a.den : ℤ), a.den * b.den⟩

/-- Exact quotient (the sign is moved into the numerator so the
denominator stays a natural number). -/
def Q.div (a b : Q) : Q :=
  if 0 ≤ b.num then ⟨a.num * (b.den : ℤ), a.den * b.num.toNat⟩
  else ⟨-(a.num * (b.den : ℤ)), a.den * (-b.num).toNat⟩

/-- Multiplication by `2 ^ k` for a signed exponent. -/
def Q.mulPow2 (a : Q) (k : ℤ) : Q :=
  if 0 ≤ k then ⟨a.num * 2 ^ k.toNat, a.den⟩ else ⟨a.num, a.den * 2 ^ (-k).toNat⟩

/-- The rational `2 ^ k` for a signed exponent. -/
def pow2Q (k : ℤ) : Q := Q.mulPow2 (Q.ofNat 1) k

/-- Mathematical floor of a `Q` value. -/
def Q.floorInt (a : Q) : ℤ := a.num.fdiv (a.den : ℤ)

/-- Python `int()` applied to an exact value: truncation toward zero. -/
def Q.truncInt (a : Q) : ℤ := a.num.tdiv (a.den : ℤ)

/-- Floor of the base-2 logarithm of a natural number (structural fuel
recursion so that proofs can evaluate it; fuel `n` suffices). -/
def log2Aux : ℕ → ℕ → ℕ
  | 0, _ => 0
  | fuel + 1, n => if 2 ≤ n then log2Aux fuel (n / 2) + 1 else 0

/-- Floor of `log2 n` (equals `Nat.log2`, but evaluates by `decide`). -/
def natLog2 (n : ℕ) : ℕ := log2Aux n n

/-- Round a rational to the nearest integer, ties to even — the IEEE-754
rounding CPython's correctly rounded divisions use. -/
def rne (x : Q) : ℤ :=
  let f := x.floorInt
  let r := Q.sub x (Q.ofInt f)
  if r < ⟨1, 2⟩ then f else if (⟨1, 2⟩ : Q) < r then f + 1
  else if f % 2 = 0 then f else f + 1

/-- Floor of `log2` of a positive `Q` value. -/
def qlog2floor (q : Q) : ℤ :=
  let e0 : ℤ := (natLog2 q.num.toNat : ℤ) - (natLog2 q.den : ℤ)
  if pow2Q e0 ≤ q then e0 else e0 - 1

/-- Binary64 rounding (round to nearest, ties to even, 53-bit
significand, unbounded exponent) of a positive rational: the exact value
of the correctly rounded float quotient CPython produces, as long as the
result neither overflows (compare with `2 ^ 1024` at the use site) nor
falls into the subnormal range (never the case for the pool's targets). -/
def fl (q : Q) : Q :=
  let e := qlog2floor q
  Q.mulPow2 (Q.ofInt (rne (Q.mulPow2 q (52 - e)))) (e - 52)

/-- `Pool.bits_to_target`: parse the compact-bits hex string and return
`mantissa * 2 ^ (8 * (exponent - 3))`.  For `exponent < 3` Python
produces an (exactly representable) float; the exact value is returned
in both cases.  `none` models the `ValueError` of `int(bits_hex, 16)`. -/
def bits_to_target? (bits_hex : String) : Option Q :=
  (int16? bits_hex).map fun bits =>
    let exponent := (bits >>> 24) &&& 0xff
    let mantissa := bits &&& 0x00ffffff
    Q.mulPow2 (Q.ofNat mantissa) (8 * ((exponent : ℤ) - 3))

/-- `Pool.difficulty_to_target`.  The source computes
`int(max_target / difficulty)` with `max_target` a Python int and
`difficulty` a number, so the quotient is a correctly rounded binary64
float; `int()` truncates it, and `OverflowError` (conversion of an
infinite quotient) is caught and answered with `max_target`.  For
`difficulty ≤ 0` the function returns `2 ^ 256 - 1`, and the result is
clamped to `max_target`. -/
def difficulty_to_target (difficulty : Q) : ℕ :=
  if difficulty ≤ Q.ofNat 0 then 2 ^ 256 - 1
  else
    let bits_value : ℕ := 0x1d00ffff
    let mantissa := bits_value &&& 0x00ffffff
    let exponent := (bits_value >>> 24) &&& 0xff
    let max_target := mantissa * 2 ^ (8 * (exponent - 3))
    let q := fl (Q.div (Q.ofNat max_target) difficulty)
    if pow2Q 1024 ≤ q then max_target
    else
      let target_value := q.truncInt.toNat
      if max_target < target_value then max_target else target_value

/-- `ser_number` from `Pool.create_coinbase_tx`: a tag byte followed by
a fixed-width little-endian payload (1, 2, 4 or 8 bytes for tags
`0x01`, `0x02`, `0x03`, `0x04`); `0` encodes as the single byte `0x00`.
The final branch packs with `struct.pack("<Q", n)`, which raises for
`n ≥ 2 ^ 64` (`none`). -/
def ser_number (n : ℕ) : Option (List ℕ) :=
  if n < 0x01 then some [n]
  else if n ≤ 0xff then some [0x01, n]
  else if n ≤ 0xffff then some (0x02 :: leBytes 2 n)
  else if n ≤ 0xffffffff then some (0x03 :: leBytes 4 n)
  else if n ≤ 0xffffffffffffffff then some (0x04 :: leBytes 8 n)
  else none

/-- The encoding the specification describes for `ser_number` (written
from the spec's words, for comparison with the code): `[len][LE bytes]`
with `len` the minimal number of bytes needed to represent `n`; `0`
encodes as the single byte `0x00`. -/
def spec_ser_number (n : ℕ) : List ℕ :=
  if n = 0 then [0]
  else if n ≤ 0xff then 1 :: leBytes 1 n
  else if n ≤ 0xffff then 2 :: leBytes 2 n
  else if n ≤ 0xffffff then 3 :: leBytes 3 n
  else if n ≤ 0xffffffff then 4 :: leBytes 4 n
  else if n ≤ 0xffffffffff then 5 :: leBytes 5 n
  else if n ≤ 0xffffffffffff then 6 :: leBytes 6 n
  else if n ≤ 0xffffffffffffff then 7 :: leBytes 7 n
  else 8 :: leBytes 8 n

/-- `encode_varint` from `Pool.create_coinbase_tx` (Bitcoin CompactSize);
the final branch raises for `n ≥ 2 ^ 64`. -/
def encode_varint (n : ℕ) : Option (List ℕ) :=
  if n < 0xfd then some [n]
  else if n ≤ 0xffff then some (0xfd :: leBytes 2 n)
  else if n ≤ 0xffffffff then some (0xfe :: leBytes 4 n)
  else if n ≤ 0xffffffffffffffff then some (0xff :: leBytes 8 n)
  else none

/-- One template transaction (`{txid, data}` entries of
`getblocktemplate`, coinbase excluded). -/
structure Tx where
  txid : String
  data : String
deriving DecidableEq

/-- The block-template fields `Pool` reads. -/
structure Template where
  height : ℕ
  previousblockhash : String
  coinbasevalue : ℕ
  transactions : List Tx
  version : ℕ
  bits : String
  curtime : ℕ
deriving DecidableEq

/-- A Stratum job as built by `Pool.create_stratum_job` (the dictionary
stored in `self.jobs`).  `ntime` is the integer `curtime` of the
template, `nbits` the compact-bits hex string. -/
structure Job where
  job_id : ℕ
  prevhash : String
  coinbase1 : String
  coinbase2 : String
  merkle_branches : List String
  version : ℕ
  nbits : String
  ntime : ℕ
  clean_jobs : Bool
  template : Template
  pool_difficulty : Q
deriving DecidableEq

/-- One pairwise-hashing step of `Pool.calculate_merkle_branches`
(`next_level` construction: `level[i] ∥ level[i+1]`, duplicating
`level[i]` when `i + 1` is out of range). -/
def pairUp (dsha : List ℕ → List ℕ) : List (List ℕ) → List (List ℕ)
  | x :: y :: rest => dsha (x ++ y) :: pairUp dsha rest
  | [x] => [dsha (x ++ x)]
  | [] => []

/-- The `while len(level) > 1` loop of `Pool.calculate_merkle_branches`,
fuel-driven (the initial level length is ample fuel: the loop runs at
most `ceil(log2 length)` times). -/
def merkleLoop (dsha : List ℕ → List ℕ) :
    ℕ → ℕ → List (List ℕ) → List String → List String
  | 0, _, _, branches => branches
  | fuel + 1, index, level, branches =>
    if level.length ≤ 1 then branches
    else
      let level1 := if level.length % 2 ≠ 0 then level ++ [level.getLastD []] else level
      let branches1 :=
        if index % 2 = 0 ∧ index + 1 < level1.length then
          branches ++ [bytesToHex (level1.getD (index + 1) []).reverse]
        else if index % 2 = 1 ∧ 1 ≤ index then
          branches ++ [bytesToHex (level1.getD (index - 1) []).reverse]
        else branches
      merkleLoop dsha fuel (index / 2) (pairUp dsha level1) branches1

/-- `Pool.calculate_merkle_branches`: for the empty transaction list the
result is `[]`; otherwise the txids are hex-decoded and byte-reversed
(wire big-endian to internal little-endian) and the loop walks the index
starting at 0, the position the source comments call the coinbase index,
over the levels of the tree built from these hashes.  `none` models the
`ValueError` of `bytes.fromhex` on a malformed txid. -/
def calculate_merkle_branches (dsha : List ℕ → List ℕ)
    (transactions : List Tx) : Option (List String) :=
  if transactions = [] then some []
  else
    match transactions.mapM (fun tx => (fromhex? tx.txid).map List.reverse) with
    | none => none
    | some tx_hashes => some (merkleLoop dsha tx_hashes.length 0 tx_hashes [])

/-- `scriptsig_header` of `Pool.create_coinbase_tx`: version, one input,
null previous outpoint, `0xffffffff` index, script length placeholder. -/
def scriptsig_header : List ℕ :=
  [0x01, 0x00, 0x00, 0x00] ++ [0x01] ++ List.replicate 32 0x00
    ++ [0xff, 0xff, 0xff, 0xff] ++ [0x00]

/-- The two coinbase halves returned by `Pool.create_coinbase_tx`. -/
structure CoinbaseParts where
  coinbase1 : String
  coinbase2 : String
deriving DecidableEq

/-- `Pool.create_coinbase_tx`.  The wall-clock values `now` and `nsec`
and the address-to-scriptPubKey collaborator `spk` (bech32/base58
libraries) are explicit parameters; everything else follows the source:
scriptSig = `ser_number height` ∥ length-prefixed pool flags ∥
`ser_number now` ∥ `ser_number nsec` ∥ extranonce-length byte, the
script-length placeholder is patched in place, and the second half holds
the pool signature, sequence, one output paying `block_reward`
(`struct.pack("<Q", ...)`, raising for `block_reward ≥ 2 ^ 64`), the
scriptPubKey with CompactSize length, and the zero locktime. -/
def create_coinbase_tx (spk : String → String) (now nsec height block_reward : ℕ)
    (address : String) : Option CoinbaseParts :=
  match ser_number height, ser_number now, ser_number nsec with
  | some height_bytes, some time_bytes, some nsec_bytes =>
    let flags := asciiBytes "Kazumyon Mining Pool"
    let enonce1varlen := 4
    let enonce2varlen := 4
    let body := height_bytes ++ [flags.length] ++ flags ++ time_bytes ++ nsec_bytes
        ++ [enonce1varlen + enonce2varlen]
    let coinb1len := scriptsig_header.length + body.length
    let script_len_pos := scriptsig_header.length - 1
    let script_len := coinb1len - script_len_pos - 1 + enonce1varlen + enonce2varlen - 1
    let coinb1bin := (scriptsig_header ++ body).set script_len_pos script_len
    if block_reward ≤ 0xffffffffffffffff then
      match fromhex? (spk address) with
      | some spk_bin =>
        match encode_varint spk_bin.length with
        | some vi =>
          let pool_sig := 0x0a :: asciiBytes "Kazumyon"
          let coinb2bin := pool_sig ++ [0xff, 0xff, 0xff, 0xff] ++ [0x01]
              ++ leBytes 8 block_reward ++ vi ++ spk_bin ++ [0x00, 0x00, 0x00, 0x00]
          some { coinbase1 := bytesToHex coinb1bin, coinbase2 := bytesToHex coinb2bin }
        | none => none
      | none => none
    else none
  | _, _, _ => none

/-- `Pool.create_stratum_job`: build the coinbase halves and merkle
branches for the template and assemble the job dictionary;
`clean_jobs` is the literal `True` of the source.  The configured pool
address and STRATUM difficulty are explicit parameters. -/
def create_stratum_job (dsha : List ℕ → List ℕ) (spk : String → String)
    (now nsec : ℕ) (pool_address : String) (stratum_difficulty : Q)
    (template : Template) (job_id : ℕ) : Option Job :=
  match create_coinbase_tx spk now nsec template.height template.coinbasevalue pool_address with
  | none => none
  | some cb =>
    match calculate_merkle_branches dsha template.transactions with
    | none => none
    | some merkle_branches =>
      some { job_id := job_id, prevhash := template.previousblockhash,
             coinbase1 := cb.coinbase1, coinbase2 := cb.coinbase2,
             merkle_branches := merkle_branches, version := template.version,
             nbits := template.bits, ntime := template.curtime, clean_jobs := true,
             template := template, pool_difficulty := stratum_difficulty }

/-- The height test of `Pool.update_block_template` (line 88): a job is
created and distributed exactly when there is no current block yet or
the fetched template's height differs from the current one. -/
def template_height_changed (current_block : Option Template) (template : Template) : Bool :=
  match current_block with
  | none => true
  | some cur => template.height != cur.height

/-- `Pool.distribute_job`'s effect on the job list: append, then keep
only the newest 20 jobs. -/
def distribute_job (jobs : List Job) (job : Job) : List Job :=
  let js := jobs ++ [job]
  if 20 < js.length then js.drop (js.length - 20) else js

/-- The `Pool` state that `validate_share` reads and writes: the held
jobs and the submitted-share set (`self.submitted_shares` keys; the
stored timestamps and the per-worker statistics of `record_share` do not
influence any result and are not modelled). -/
structure VState where
  jobs : List Job
  submitted : List String
deriving DecidableEq

/-- The result dictionary of `Pool.validate_share` (`block_found` is
absent on rejection in the source, read as false). -/
structure VResult where
  valid : Bool
  reason : Option String
  block_found : Bool
deriving DecidableEq

/-- The fields of one `mining.submit` as `validate_share` receives them.
`difficulty` is the exact value of the float the server passes, or
`none` for the `job['pool_difficulty']` fallback. -/
structure Submission where
  worker : String
  job_id : String
  extranonce1 : String
  extranonce2 : String
  ntime : String
  nonce : String
  version : Option String
  difficulty : Option Q
deriving DecidableEq

/-- A rejection result; the source's exception paths append the message
text of the exception to `'Validation error: '`, which is modelled by
the bare reason `"Validation error"`. -/
def rejectShare (r : String) : VResult :=
  { valid := false, reason := some r, block_found := false }

/-- The duplicate-check key
`f"{worker_name}:{job_id}:{extranonce2}:{ntime}:{nonce}"`. -/
def share_key (x : Submission) : String :=
  x.worker ++ ":" ++ x.job_id ++ ":" ++ x.extranonce2 ++ ":" ++ x.ntime ++ ":" ++ x.nonce

/-- `bytes.ljust(4, b'\x00')` as applied after each `bytes.fromhex` in
the header assembly: pad on the right up to 4 bytes, leave longer input
unchanged. -/
def pad4 (bs : List ℕ) : List ℕ :=
  if bs.length < 4 then bs ++ List.replicate (4 - bs.length) 0 else bs

/-- The version-rolling step of `validate_share`: a non-empty submitted
version hex string is ORed onto the job version (ckpool logic); the
result is laid out big-endian with `to_bytes(4, 'big')`, whose
`OverflowError` for values `≥ 2 ^ 32` is `none`. -/
def version_bytes? (job_version : ℕ) (v? : Option String) : Option (List ℕ) :=
  match v? with
  | some v =>
    if v ≠ "" then
      match int16? v with
      | some cv =>
        let fv := job_version ||| cv
        if fv < 2 ^ 32 then some (beBytes 4 fv) else none
      | none => none
    else if job_version < 2 ^ 32 then some (beBytes 4 job_version) else none
  | none => if job_version < 2 ^ 32 then some (beBytes 4 job_version) else none

/-- The merkle-root loop of `validate_share`: starting from the coinbase
hash, fold `double_sha256(root ∥ branch_bytes)` over the job's branch
list (branches decoded as supplied). -/
def fold_merkle (dsha : List ℕ → List ℕ) : List ℕ → List String → Option (List ℕ)
  | root, [] => some root
  | root, b :: bs =>
    match fromhex? b with
    | some bb => fold_merkle dsha (dsha (root ++ bb)) bs
    | none => none

/-- Steps 4-5 of `validate_share`: coinbase reconstruction
`coinbase1 ∥ extranonce1 ∥ extranonce2 ∥ coinbase2`, its double SHA-256,
and the merkle-root fold. -/
def merkle_root_bytes? (dsha : List ℕ → List ℕ) (job : Job) (x : Submission) :
    Option (List ℕ) :=
  match fromhex? (job.coinbase1 ++ x.extranonce1 ++ x.extranonce2 ++ job.coinbase2) with
  | some coinbase_bin => fold_merkle dsha (dsha coinbase_bin) job.merkle_branches
  | none => none

/-- Steps 6-8 of `validate_share`: the ckpool-style header (big-endian
fields around the word32-flipped merkle root), the flip of the whole
header, its double SHA-256, and the little-endian integer reading of the
digest.  `none` collects every exception of these steps. -/
def header_hash_int? (dsha : List ℕ → List ℕ) (job : Job) (x : Submission) : Option ℕ :=
  match merkle_root_bytes? dsha job x with
  | none => none
  | some merkle_root =>
    match version_bytes? job.version x.version with
    | none => none
    | some version_bytes =>
      match fromhex? job.prevhash, fromhex? x.ntime, fromhex? job.nbits, fromhex? x.nonce with
      | some prevhash_bytes, some ntime_bytes, some nbits_bytes, some nonce_bytes =>
        let header_be := version_bytes ++ prevhash_bytes ++ flip_bytes merkle_root
            ++ pad4 ntime_bytes ++ pad4 nbits_bytes ++ pad4 nonce_bytes
        some (leNat (dsha (flip_bytes header_be)))
      | _, _, _, _ => none

/-- Steps 4-9 of `validate_share` (after the duplicate check): hash the
reconstructed header, compare with the pool target
(`difficulty_to_target` of the submitted difficulty, falling back to the
job's pool difficulty) and with the network target
(`bits_to_target(job['nbits'])`). -/
def validate_body (dsha : List ℕ → List ℕ) (job : Job) (x : Submission) : VResult :=
  match header_hash_int? dsha job x with
  | none => rejectShare "Validation error"
  | some header_hash_int =>
    let current_difficulty := x.difficulty.getD job.pool_difficulty
    let pool_target := difficulty_to_target current_difficulty
    match bits_to_target? job.nbits with
    | none => rejectShare "Validation error"
    | some network_target =>
      if header_hash_int ≤ pool_target then
        { valid := true, reason := none,
          block_found := decide (Q.ofNat header_hash_int ≤ network_target) }
      else rejectShare "Share above target"

/-- `Pool.validate_share`: job-id parse, job lookup, time window,
duplicate check (inserting the key), then the hashing body.  The job's
`ntime` is stored as an integer by `create_stratum_job`, so the
`isinstance(str)` branch of the source is the identity here. -/
def validate_share (dsha : List ℕ → List ℕ) (s : VState) (x : Submission) :
    VResult × VState :=
  match int16? x.job_id with
  | none => (rejectShare "Invalid job ID format", s)
  | some numeric_job_id =>
    match s.jobs.find? (fun j => j.job_id == numeric_job_id) with
    | none => (rejectShare "Job not found", s)
    | some job =>
      match int16? x.ntime with
      | none => (rejectShare "Validation error", s)
      | some submit_ntime =>
        if 600 < ((job.ntime : ℤ) - (submit_ntime : ℤ)).natAbs then
          (rejectShare "Time out of range", s)
        else if share_key x ∈ s.submitted then
          (rejectShare "Duplicate share", s)
        else
          (validate_body dsha job x, { s with submitted := share_key x :: s.submitted })

/-- True exactly when a submission gets past the duplicate check of
`validate_share` (or is rejected by it): well-formed job id, job found,
parsable `ntime` within the 600-second window. -/
def early_checks (s : VState) (x : Submission) : Bool :=
  match int16? x.job_id with
  | none => false
  | some numeric_job_id =>
    match s.jobs.find? (fun j => j.job_id == numeric_job_id) with
    | none => false
    | some job =>
      match int16? x.ntime with
      | none => false
      | some submit_ntime => ((job.ntime : ℤ) - (submit_ntime : ℤ)).natAbs ≤ 600

/-- Fold a sequence of submissions through `validate_share`, keeping the
pool state. -/
def run_validates (dsha : List ℕ → List ℕ) (s : VState) : List Submission → VState
  | [] => s
  | y :: ys => run_validates dsha (validate_share dsha s y).2 ys

/-- Python slice `s[:n]`. -/
def strTake (s : String) (n : ℕ) : String := ⟨s.data.take n⟩

/-- The per-connection state of `StratumServer` (`self.clients[client_id]`):
`client_id` is assigned at accept time and never changes; the remaining
fields are the dictionary entries the handlers write (`None` models an
absent key). -/
structure ClientState where
  client_id : String
  subscribed : Bool
  authorized : Bool
  extranonce1 : Option String
  extranonce2_size : Option ℕ
  worker_name : Option String
  bitcoin_address : Option String
  difficulty : Option Q
  suggested_difficulty : Option Q
deriving DecidableEq

/-- The nine positional parameters of a `mining.notify` notification as
the server serialises them. -/
structure NotifyParams where
  job_id : String
  prevhash : String
  coinbase1 : String
  coinbase2 : String
  merkle_branches : List String
  version : String
  nbits : String
  ntime : String
  clean_jobs : Bool
deriving DecidableEq

/-- A frame the authorize handler writes directly to the socket (outside
the request/response discipline of the message loop). -/
inductive Frame where
  | authResult (id : Option ℕ) (ok : Bool)
  | setDifficulty (d : Q)
  | notify (p : NotifyParams)
deriving DecidableEq

/-- A reply value returned by `process_message`; the message loop sends
it if and only if it is not `None`. -/
inductive Reply where
  | subscribeResult (id : Option ℕ) (session_id : String)
      (extranonce1 : String) (extranonce2_size : ℕ)
  | boolResult (id : Option ℕ) (b : Bool)
  | submitResult (id : Option ℕ) (ok : Bool) (err : Option (ℕ × String))
  | configureResult (id : Option ℕ) (version_rolling : Bool) (mask : String)
  | txsResult (id : Option ℕ) (txs : List Tx)
  | stringResult (id : Option ℕ) (s : String)
  | errorReply (id : Option ℕ) (code : ℕ) (msg : String)
deriving DecidableEq

/-- One parsed Stratum request, by method.  `configure` carries the
requested feature names and the `version-rolling.mask` entry of the
parameter dictionary; `suggest_difficulty` carries the numeric params. -/
inductive Msg where
  | subscribe (params : List String)
  | authorize (params : List String)
  | submit (params : List String)
  | configure (features : List String) (mask? : Option String)
  | suggest_difficulty (params : List Q)
  | get_transactions
  | get_version
  | reconnect
  | unknown (method : String)
deriving DecidableEq

/-- The STRATUM configuration entries `StratumServer.__init__` reads. -/
structure ServerConfig where
  default_difficulty : Q
  accept_suggested_difficulty : Bool
deriving DecidableEq

/-- `StratumServer.validate_worker`: any truthy worker name passes, a
missing or empty name fails (the `register_worker` side effect touches
only the unmodelled `pool.miners` statistics). -/
def validate_worker (worker_name : Option String) : Bool :=
  match worker_name with
  | some w => w != ""
  | none => false

/-- The `mining.notify` parameters built inside the `mining.authorize`
handler (lines 249-263): hex-formatted job id, version and ntime, and
the hard-coded `False` ninth parameter. -/
def authorize_notify_params (job : Job) : NotifyParams :=
  { job_id := format_hex 16 job.job_id, prevhash := job.prevhash,
    coinbase1 := job.coinbase1, coinbase2 := job.coinbase2,
    merkle_branches := job.merkle_branches, version := format_hex 8 job.version,
    nbits := job.nbits, ntime := format_hex 8 job.ntime, clean_jobs := false }

/-- The `mining.notify` parameters built by
`StratumServer.broadcast_jobs` (lines 502-516): identical layout, ninth
parameter the literal `False`. -/
def broadcast_notify_params (job : Job) : NotifyParams :=
  { job_id := format_hex 16 job.job_id, prevhash := job.prevhash,
    coinbase1 := job.coinbase1, coinbase2 := job.coinbase2,
    merkle_branches := job.merkle_branches, version := format_hex 8 job.version,
    nbits := job.nbits, ntime := format_hex 8 job.ntime, clean_jobs := false }

/-- The raw notify parameters of `Pool.send_job_to_miner` (lines
270-280): unformatted values straight from the job dictionary, the ninth
parameter being the job's own `clean_jobs`. -/
structure PoolNotifyParams where
  job_id : ℕ
  prevhash : String
  coinbase1 : String
  coinbase2 : String
  merkle_branches : List String
  version : ℕ
  nbits : String
  ntime : ℕ
  clean_jobs : Bool
deriving DecidableEq

/-- `Pool.send_job_to_miner`'s notify payload for a job. -/
def send_job_params (job : Job) : PoolNotifyParams :=
  { job_id := job.job_id, prevhash := job.prevhash, coinbase1 := job.coinbase1,
    coinbase2 := job.coinbase2, merkle_branches := job.merkle_branches,
    version := job.version, nbits := job.nbits, ntime := job.ntime,
    clean_jobs := job.clean_jobs }

/-- `StratumServer.process_message` for one client: the new client
state, the new pool state, the frames the handler wrote directly to the
socket, and the return value (the message loop at lines 112-119 sends
the returned reply only when it is not `None`).  `pool.get_current_job()`
is modelled as the newest held job. -/
def process_message (cfg : ServerConfig) (dsha : List ℕ → List ℕ)
    (pool : VState) (c : ClientState) (msg_id : Option ℕ) (m : Msg) :
    ClientState × VState × List Frame × Option Reply :=
  match m with
  | Msg.subscribe _ =>
    let session_id := strTake c.client_id 8
    let extranonce1 := session_id ++ "00"
    let extranonce2_size := 4
    ({ c with subscribed := true, extranonce1 := some extranonce1,
              extranonce2_size := some extranonce2_size },
     pool, [],
     some (Reply.subscribeResult msg_id session_id extranonce1 extranonce2_size))
  | Msg.authorize params =>
    let worker_name := match params with | [] => none | w :: _ => some w
    let bitcoin_address := worker_name
    if validate_worker worker_name then
      let c1 := { c with authorized := true, worker_name := worker_name,
                         bitcoin_address := bitcoin_address,
                         difficulty := some cfg.default_difficulty }
      let job_frames := match pool.jobs.getLast? with
        | some job => [Frame.notify (authorize_notify_params job)]
        | none => []
      (c1, pool,
       [Frame.authResult msg_id true, Frame.setDifficulty cfg.default_difficulty]
         ++ job_frames,
       none)
    else (c, pool, [], none)
  | Msg.submit params =>
    if !c.authorized then
      (c, pool, [], some (Reply.errorReply msg_id 24 "Unauthorized worker"))
    else
      match params with
      | worker :: job_id :: extranonce2 :: ntime :: nonce :: rest =>
        match c.extranonce1 with
        | none => (c, pool, [], some (Reply.errorReply msg_id 20 "Internal error during validation"))
        | some extranonce1 =>
          let x : Submission :=
            { worker := worker, job_id := job_id, extranonce1 := extranonce1,
              extranonce2 := extranonce2, ntime := ntime, nonce := nonce,
              version := rest.head?,
              difficulty := some (c.difficulty.getD cfg.default_difficulty) }
          let rs := validate_share dsha pool x
          if rs.1.valid then
            (c, rs.2, [], some (Reply.submitResult msg_id true none))
          else
            (c, rs.2, [],
             some (Reply.submitResult msg_id false
               (some (21, rs.1.reason.getD "Share rejected"))))
      | _ => (c, pool, [], some (Reply.errorReply msg_id 21 "Missing parameters"))
  | Msg.configure features mask? =>
    if ("version-rolling" ∈ features) ∧ mask?.isSome then
      (c, pool, [], some (Reply.configureResult msg_id true (mask?.getD "00000000")))
    else
      (c, pool, [], some (Reply.configureResult msg_id false "00000000"))
  | Msg.suggest_difficulty params =>
    let suggested := params.headD (Q.ofNat 1000)
    let difficulty_to_use :=
      if cfg.accept_suggested_difficulty then suggested else cfg.default_difficulty
    ({ c with suggested_difficulty := some suggested,
              difficulty := some difficulty_to_use },
     pool, [Frame.setDifficulty difficulty_to_use],
     some (Reply.boolResult msg_id true))
  | Msg.get_transactions =>
    (c, pool, [], some (Reply.txsResult msg_id []))
  | Msg.get_version =>
    (c, pool, [], some (Reply.stringResult msg_id "Bitcoin Mining Pool v0.1.0"))
  | Msg.reconnect =>
    (c, pool, [], some (Reply.boolResult msg_id true))
  | Msg.unknown method =>
    (c, pool, [], some (Reply.errorReply msg_id 20 ("Unknown method " ++ method)))

/-- Degenerate stand-in for `double_sha256` used by concrete witnesses:
constant all-zero digest (every hash-dependent claim below is proved for
an arbitrary `dsha`). -/
def dsha0 : List ℕ → List ℕ := fun _ => List.replicate 32 0x00

/-- Stand-in hash returning the all-`0xff` digest (its little-endian
value `2 ^ 256 - 1` exceeds every target). -/
def dshaF : List ℕ → List ℕ := fun _ => List.replicate 32 0xff

/-- Stand-in address-to-scriptPubKey collaborator: the `'6a00'` fallback
script the source itself uses for undecodable addresses. -/
def spk0 : String → String := fun _ => "6a00"

/-- A minimal template at height 100 with no transactions. -/
def tmpl0 : Template :=
  { height := 100,
    previousblockhash :=
      "0000000000000000000000000000000000000000000000000000000000000000",
    coinbasevalue := 5000000000, transactions := [], version := 0x20000000,
    bits := "1d00ffff", curtime := 1000 }

/-- The same template one block later (height 101). -/
def tmplA : Template := { tmpl0 with height := 101 }

/-- A held job for `tmpl0` with pool difficulty 1. -/
def job0 : Job :=
  { job_id := 1,
    prevhash := "0000000000000000000000000000000000000000000000000000000000000000",
    coinbase1 := "", coinbase2 := "", merkle_branches := [],
    version := 0x20000000, nbits := "1d00ffff", ntime := 1000,
    clean_jobs := true, template := tmpl0, pool_difficulty := Q.ofNat 1 }

/-- Default job value for `Option.getD` in witnesses. -/
def jdef : Job := job0

/-- Pool state holding exactly `job0`, no submitted shares. -/
def state0 : VState := { jobs := [job0], submitted := [] }

/-- A well-formed submission for `job0` at the job's own `ntime`. -/
def sub0 : Submission :=
  { worker := "w", job_id := "0000000000000001", extranonce1 := "",
    extranonce2 := "", ntime := "000003e8", nonce := "00000000",
    version := none, difficulty := none }

/-- The same submission with `ntime = job0.ntime + 601 = 0x641`. -/
def subStale : Submission := { sub0 with ntime := "00000641" }

/-- The 5-tuple of `sub0` resubmitted with version-rolling bits set (a
different submission sharing `(worker, job_id, extranonce2, ntime,
nonce)`). -/
def sub0v : Submission := { sub0 with version := some "20000000" }

/-- Server configuration with the default difficulty 1.0. -/
def cfg0 : ServerConfig :=
  { default_difficulty := Q.ofNat 1, accept_suggested_difficulty := true }

/-- A fresh client whose id begins with the 8-hex-digit UUID group the
source's own comment shows (`"bf3796c2"`). -/
def client0 : ClientState :=
  { client_id := "bf3796c2", subscribed := false, authorized := false,
    extranonce1 := none, extranonce2_size := none, worker_name := none,
    bitcoin_address := none, difficulty := none, suggested_difficulty := none }

/-- A transaction with a well-formed 64-hex-digit txid. -/
def txA : Tx :=
  { txid := "aaaaaaaaaaaaaaaaaaaaaaaaaaaaaaaaaaaaaaaaaaaaaaaaaaaaaaaaaaaaaaaa",
    data := "" }

/-- A second such transaction. -/
def txB : Tx :=
  { txid := "bbbbbbbbbbbbbbbbbbbbbbbbbbbbbbbbbbbbbbbbbbbbbbbbbbbbbbbbbbbbbbbb",
    data := "" }

/-- The pool state of `validate_share` keeps the job list unchanged. -/
theorem validate_share_jobs_eq (dsha : List ℕ → List ℕ) (s : VState) (x : Submission) :
    (validate_share dsha s x).2.jobs = s.jobs := by
  unfold validate_share
  split
  · rfl
  · split
    · rfl
    · split
      · rfl
      · split
        · rfl
        · split
          · rfl
          · rfl

/-- `validate_share` never removes a key from the submitted-share set. -/
theorem validate_share_submitted_mono (dsha : List ℕ → List ℕ) (s : VState)
    (x : Submission) (k : String) (hk : k ∈ s.submitted) :
    k ∈ (validate_share dsha s x).2.submitted := by
  unfold validate_share
  split
  · exact hk
  · split
    · exact hk
    · split
      · exact hk
      · split
        · exact hk
        · split
          · exact hk
          · exact List.mem_cons_of_mem _ hk

/-- `run_validates` keeps the job list unchanged. -/
theorem run_validates_jobs_eq (dsha : List ℕ → List ℕ) (ys : List Submission) :
    ∀ s : VState, (run_validates dsha s ys).jobs = s.jobs := by
  induction ys with
  | nil => intro s; rfl
  | cons y ys ih =>
    intro s
    calc (run_validates dsha (validate_share dsha s y).2 ys).jobs
        = (validate_share dsha s y).2.jobs := ih _
      _ = s.jobs := validate_share_jobs_eq dsha s y

/-- `run_validates` never removes a key from the submitted-share set. -/
theorem run_validates_submitted_mono (dsha : List ℕ → List ℕ) (ys : List Submission)
    (k : String) : ∀ s : VState, k ∈ s.submitted →
    k ∈ (run_validates dsha s ys).submitted := by
  induction ys with
  | nil => intro s hk; exact hk
  | cons y ys ih =>
    intro s hk
    exact ih _ (validate_share_submitted_mono dsha s y k hk)

/-- `early_checks` reads nothing but the job list of the state. -/
theorem early_checks_jobs_congr (s s' : VState) (x : Submission)
    (h : s.jobs = s'.jobs) : early_checks s x = early_checks s' x := by
  unfold early_checks
  rw [h]

/-- After a submission passes (or is stopped by) the duplicate check,
its key is in the submitted set of the resulting state. -/
theorem early_checks_key_inserted (dsha : List ℕ → List ℕ) (s : VState)
    (x : Submission) (h : early_checks s x = true) :
    share_key x ∈ (validate_share dsha s x).2.submitted := by
  unfold early_checks at h
  unfold validate_share
  cases hjid : int16? x.job_id with
  | none => rw [hjid] at h; exact absurd h (by simp)
  | some numeric_job_id =>
    simp only [hjid] at h ⊢
    cases hjob : s.jobs.find? (fun j => j.job_id == numeric_job_id) with
    | none => rw [hjob] at h; exact absurd h (by simp)
    | some job =>
      simp only [hjob] at h ⊢
      cases hnt : int16? x.ntime with
      | none => rw [hnt] at h; exact absurd h (by simp)
      | some submit_ntime =>
        simp only [hnt, decide_eq_true_eq] at h ⊢
        rw [if_neg (by omega)]
        by_cases hdup : share_key x ∈ s.submitted
        · rw [if_pos hdup]; exact hdup
        · rw [if_neg hdup]; exact List.mem_cons_self _ _

/-- A submission whose early checks pass and whose key is already in the
submitted set is rejected as a duplicate, without touching the state. -/
theorem validate_dup_of_mem (dsha : List ℕ → List ℕ) (s : VState) (x : Submission)
    (h : early_checks s x = true) (hk : share_key x ∈ s.submitted) :
    validate_share dsha s x = (rejectShare "Duplicate share", s) := by
  unfold early_checks at h
  unfold validate_share
  cases hjid : int16? x.job_id with
  | none => rw [hjid] at h; exact absurd h (by simp)
  | some numeric_job_id =>
    simp only [hjid] at h ⊢
    cases hjob : s.jobs.find? (fun j => j.job_id == numeric_job_id) with
    | none => rw [hjob] at h; exact absurd h (by simp)
    | some job =>
      simp only [hjob] at h ⊢
      cases hnt : int16? x.ntime with
      | none => rw [hnt] at h; exact absurd h (by simp)
      | some submit_ntime =>
        simp only [hnt, decide_eq_true_eq] at h ⊢
        rw [if_neg (by omega), if_pos hk]

/-- No result of the hashing body carries the time-window reason. -/
theorem validate_body_reason_ne_time (dsha : List ℕ → List ℕ) (job : Job)
    (x : Submission) :
    (validate_body dsha job x).reason ≠ some "Time out of range" := by
  unfold validate_body
  split
  · intro h; simp only [rejectShare, Option.some.injEq] at h; exact absurd h (by decide)
  · split
    · intro h; simp only [rejectShare, Option.some.injEq] at h; exact absurd h (by decide)
    · dsimp only
      split
      · intro h; simp at h
      · intro h; simp only [rejectShare, Option.some.injEq] at h; exact absurd h (by decide)

/-- C1: every submission `validate_share` accepts as a share has its
header hash — the double SHA-256 of the word32-flipped ckpool-style
header, read as a little-endian 256-bit integer — at or below
`difficulty_to_target` of the effective difficulty (the submitted one,
else the job's pool difficulty); every submission it marks `block_found`
additionally has it at or below `bits_to_target(job.nbits)`. -/
theorem validate_accept_meets_targets (dsha : List ℕ → List ℕ) (s : VState)
    (x : Submission) (r : VResult) (s' : VState)
    (hrun : validate_share dsha s x = (r, s')) (hv : r.valid = true) :
    ∃ numeric_job_id job header_hash_int,
      int16? x.job_id = some numeric_job_id ∧
      s.jobs.find? (fun j => j.job_id == numeric_job_id) = some job ∧
      header_hash_int? dsha job x = some header_hash_int ∧
      header_hash_int ≤ difficulty_to_target (x.difficulty.getD job.pool_difficulty) ∧
      (r.block_found = true → ∃ network_target,
        bits_to_target? job.nbits = some network_target ∧
        Q.ofNat header_hash_int ≤ network_target) := by
  unfold validate_share at hrun
  cases hjid : int16? x.job_id with
  | none =>
    simp only [hjid] at hrun
    injection hrun with h1 _
    subst h1
    exact absurd hv (by decide)
  | some numeric_job_id =>
    simp only [hjid] at hrun
    cases hjob : s.jobs.find? (fun j => j.job_id == numeric_job_id) with
    | none =>
      simp only [hjob] at hrun
      injection hrun with h1 _
      subst h1
      exact absurd hv (by decide)
    | some job =>
      simp only [hjob] at hrun
      cases hnt : int16? x.ntime with
      | none =>
        simp only [hnt] at hrun
        injection hrun with h1 _
        subst h1
        exact absurd hv (by decide)
      | some submit_ntime =>
        simp only [hnt] at hrun
        split at hrun
        · injection hrun with h1 _
          subst h1
          exact absurd hv (by decide)
        · split at hrun
          · injection hrun with h1 _
            subst h1
            exact absurd hv (by decide)
          · injection hrun with h1 _
            refine ⟨numeric_job_id, job, ?_⟩
            unfold validate_body at h1
            cases hh : header_hash_int? dsha job x with
            | none =>
              simp only [hh] at h1
              subst h1
              exact absurd hv (by decide)
            | some header_hash_int =>
              simp only [hh] at h1
              cases hbt : bits_to_target? job.nbits with
              | none =>
                simp only [hbt] at h1
                subst h1
                exact absurd hv (by decide)
              | some network_target =>
                simp only [hbt] at h1
                split at h1
                next hle =>
                  subst h1
                  exact ⟨header_hash_int, rfl, hjob, rfl, hle, fun hb =>
                    ⟨network_target, rfl, of_decide_eq_true hb⟩⟩
                next _ =>
                  subst h1
                  exact absurd hv (by decide)

/-- C1 witness: a concrete accepting run (constant-zero digest, job at
difficulty 1) whose hash meets both targets. -/
theorem validate_accept_meets_targets_w :
    ∃ numeric_job_id job header_hash_int,
      int16? sub0.job_id = some numeric_job_id ∧
      state0.jobs.find? (fun j => j.job_id == numeric_job_id) = some job ∧
      header_hash_int? dsha0 job sub0 = some header_hash_int ∧
      header_hash_int ≤ difficulty_to_target (sub0.difficulty.getD job.pool_difficulty) ∧
      (true = true → ∃ network_target,
        bits_to_target? job.nbits = some network_target ∧
        Q.ofNat header_hash_int ≤ network_target) :=
  validate_accept_meets_targets dsha0 state0 sub0
    { valid := true, reason := none, block_found := true }
    { jobs := [job0], submitted := [share_key sub0] } (by decide) (by decide)

/-- C7: for a submission whose job id parses and is found and whose
`ntime` parses, `validate_share` rejects with reason `Time out of range`
exactly when `|job.ntime - ntime| > 600`. -/
theorem validate_time_window_iff (dsha : List ℕ → List ℕ) (s : VState)
    (x : Submission) (numeric_job_id : ℕ) (job : Job) (submit_ntime : ℕ)
    (hjid : int16? x.job_id = some numeric_job_id)
    (hjob : s.jobs.find? (fun j => j.job_id == numeric_job_id) = some job)
    (hnt : int16? x.ntime = some submit_ntime) :
    ((validate_share dsha s x).1.reason = some "Time out of range") ↔
      600 < ((job.ntime : ℤ) - (submit_ntime : ℤ)).natAbs := by
  unfold validate_share
  simp only [hjid, hjob, hnt]
  split
  next hgt =>
    constructor
    · intro _; exact hgt
    · intro _; rfl
  next hgt =>
    constructor
    · intro hr
      exfalso
      split at hr
      · exact absurd (Option.some.inj hr) (by decide)
      · exact validate_body_reason_ne_time dsha job x hr
    · intro hgt'
      exact absurd hgt' hgt

/-- C7 witness: a submission with `ntime = job.ntime + 601` (`0x641`
against `0x3e8`) is rejected with reason `Time out of range`. -/
theorem validate_time_window_iff_w :
    (validate_share dsha0 state0 subStale).1.reason = some "Time out of range" :=
  (validate_time_window_iff dsha0 state0 subStale 1 job0 1601
    (by decide) (by decide) (by decide)).mpr (by decide)

/-- The duplicate-check key is built from exactly the five tuple fields
`(worker, job_id, extranonce2, ntime, nonce)`, so any two submissions
agreeing on them share the key (whatever their `extranonce1`, `version`
or `difficulty`). -/
theorem share_key_tuple_congr (x y : Submission)
    (hw : y.worker = x.worker) (hj : y.job_id = x.job_id)
    (he2 : y.extranonce2 = x.extranonce2) (hnt : y.ntime = x.ntime)
    (hn : y.nonce = x.nonce) : share_key y = share_key x := by
  unfold share_key
  rw [hw, hj, he2, hnt, hn]

/-- The checks before the duplicate check read only `job_id` and `ntime`
of the submission, so they agree on any two submissions sharing those
fields. -/
theorem early_checks_tuple_congr (s : VState) (x y : Submission)
    (hj : y.job_id = x.job_id) (hnt : y.ntime = x.ntime) :
    early_checks s y = early_checks s x := by
  unfold early_checks
  rw [hj, hnt]

/-- C8: once a submission has been processed past the duplicate check,
every later submission with the same `(worker, job_id, extranonce2,
ntime, nonce)` tuple — whatever its `extranonce1`, version bits or
difficulty, and across any interleaved sequence of `validate_share`
calls — is rejected with reason `Duplicate share` (so each tuple is
accepted at most once). -/
theorem validate_accepts_at_most_once (dsha : List ℕ → List ℕ) (s : VState)
    (x : Submission) (h : early_checks s x = true) (ys : List Submission)
    (y : Submission) (hw : y.worker = x.worker) (hj : y.job_id = x.job_id)
    (he2 : y.extranonce2 = x.extranonce2) (hnt : y.ntime = x.ntime)
    (hn : y.nonce = x.nonce) :
    (validate_share dsha (run_validates dsha (validate_share dsha s x).2 ys) y).1 =
      rejectShare "Duplicate share" := by
  have h1 := early_checks_key_inserted dsha s x h
  have h2 := run_validates_submitted_mono dsha ys (share_key x) _ h1
  have hjobs : (run_validates dsha (validate_share dsha s x).2 ys).jobs = s.jobs := by
    rw [run_validates_jobs_eq, validate_share_jobs_eq]
  have h4 : early_checks (run_validates dsha (validate_share dsha s x).2 ys) y = true := by
    rw [early_checks_tuple_congr _ x y hj hnt,
      early_checks_jobs_congr _ s x hjobs]
    exact h
  rw [← share_key_tuple_congr x y hw hj he2 hnt hn] at h2
  rw [validate_dup_of_mem dsha _ y h4 h2]

/-- C8 witness: resubmitting the tuple of `sub0` with different version
bits (`sub0v`) right after the first processing is rejected as a
duplicate. -/
theorem validate_accepts_at_most_once_w :
    (validate_share dsha0 (run_validates dsha0 (validate_share dsha0 state0 sub0).2 []) sub0v).1 =
      rejectShare "Duplicate share" :=
  validate_accepts_at_most_once dsha0 state0 sub0 (by decide) [] sub0v
    rfl rfl rfl rfl rfl

/-- C9: a submission rejected with `Share above target` has nevertheless
had its key inserted into the submitted-share set, so an identical
resubmission is rejected with `Duplicate share`. -/
theorem reject_above_target_records_key (dsha : List ℕ → List ℕ) (s : VState)
    (x : Submission) (r : VResult) (s' : VState)
    (hrun : validate_share dsha s x = (r, s'))
    (hr : r.reason = some "Share above target") :
    share_key x ∈ s'.submitted ∧
      (validate_share dsha s' x).1 = rejectShare "Duplicate share" := by
  unfold validate_share at hrun
  cases hjid : int16? x.job_id with
  | none =>
    simp only [hjid] at hrun
    injection hrun with h1 _
    subst h1
    exact absurd (Option.some.inj hr) (by decide)
  | some numeric_job_id =>
    simp only [hjid] at hrun
    cases hjob : s.jobs.find? (fun j => j.job_id == numeric_job_id) with
    | none =>
      simp only [hjob] at hrun
      injection hrun with h1 _
      subst h1
      exact absurd (Option.some.inj hr) (by decide)
    | some job =>
      simp only [hjob] at hrun
      cases hnt : int16? x.ntime with
      | none =>
        simp only [hnt] at hrun
        injection hrun with h1 _
        subst h1
        exact absurd (Option.some.inj hr) (by decide)
      | some submit_ntime =>
        simp only [hnt] at hrun
        split at hrun
        · injection hrun with h1 _
          subst h1
          exact absurd (Option.some.inj hr) (by decide)
        · split at hrun
          · injection hrun with h1 _
            subst h1
            exact absurd (Option.some.inj hr) (by decide)
          · next htime hdup =>
            injection hrun with h1 h2
            have hec : early_checks s x = true := by
              unfold early_checks
              simp only [hjid, hjob, hnt, decide_eq_true_eq]
              omega
            have hmem : share_key x ∈ s'.submitted := by
              rw [← h2]; exact List.mem_cons_self _ _
            have hec' : early_checks s' x = true := by
              rw [early_checks_jobs_congr s' s x (by rw [← h2])]; exact hec
            refine ⟨hmem, ?_⟩
            rw [validate_dup_of_mem dsha s' x hec' hmem]

/-- C9 witness: with the all-ones digest the concrete run is rejected
with `Share above target`, its key is recorded, and the resubmission is
a duplicate. -/
theorem reject_above_target_records_key_w :
    share_key sub0 ∈ ({ jobs := [job0], submitted := [share_key sub0] } : VState).submitted ∧
      (validate_share dshaF { jobs := [job0], submitted := [share_key sub0] } sub0).1 =
        rejectShare "Duplicate share" :=
  reject_above_target_records_key dshaF state0 sub0 (rejectShare "Share above target")
    { jobs := [job0], submitted := [share_key sub0] } (by decide) rfl

/-- C10: a `mining.authorize` whose params are empty or whose worker
name is the empty string draws no reply at all: `validate_worker`
returns false, the handler writes no frame and falls through to `None`,
and the message loop sends only non-`None` results. -/
theorem authorize_invalid_worker_silent (cfg : ServerConfig) (dsha : List ℕ → List ℕ)
    (pool : VState) (c : ClientState) (msg_id : Option ℕ) (params : List String)
    (h : params = [] ∨ params.head? = some "") :
    validate_worker (match params with | [] => none | w :: _ => some w) = false ∧
    process_message cfg dsha pool c msg_id (Msg.authorize params) = (c, pool, [], none) := by
  rcases h with h | h
  · subst h
    exact ⟨rfl, rfl⟩
  · cases params with
    | nil => exact absurd h (by simp)
    | cons w ws =>
      have hw : w = "" := by simpa using h
      subst hw
      exact ⟨rfl, rfl⟩

/-- C10 witness: the empty parameter list gets no reply. -/
theorem authorize_invalid_worker_silent_w :
    validate_worker (match ([] : List String) with | [] => none | w :: _ => some w) = false ∧
    process_message cfg0 dsha0 state0 client0 (some 2) (Msg.authorize []) =
      (client0, state0, [], none) :=
  authorize_invalid_worker_silent cfg0 dsha0 state0 client0 (some 2) [] (Or.inl rfl)

/-- Hex-decoding an even-length list of hex digits yields half as many
bytes. -/
theorem fromhexAux_hex_length : ∀ (cs : List Char),
    (∀ c ∈ cs, (hexDigitVal? c).isSome = true) → cs.length % 2 = 0 →
    ∃ bs, fromhexAux cs = some bs ∧ bs.length = cs.length / 2
  | [], _, _ => ⟨[], rfl, rfl⟩
  | [_], _, hev => by simp at hev
  | c1 :: c2 :: cs, h, hev => by
    obtain ⟨d1, hd1⟩ := Option.isSome_iff_exists.mp (h c1 (by simp))
    obtain ⟨d2, hd2⟩ := Option.isSome_iff_exists.mp (h c2 (by simp))
    obtain ⟨bs, hbs, hlen⟩ := fromhexAux_hex_length cs
      (fun c hc => h c (by simp [hc]))
      (by simp only [List.length_cons] at hev; omega)
    refine ⟨(16 * d1 + d2) :: bs, ?_, ?_⟩
    · unfold fromhexAux
      simp only [hd1, hd2, hbs]
    · simp only [List.length_cons, hlen]
      omega

/-- String concatenation concatenates the character data. -/
theorem string_data_append (a b : String) : (a ++ b).data = a.data ++ b.data := rfl

/-- C2 (amended): `mining.subscribe` replies with
`extranonce1 = client_id[:8] + "00"` — ten hex digits decoding to five
bytes, so its byte length plus the fixed `extranonce2_size = 4` is nine,
not eight — stores it in the session, and no other handler ever changes
`extranonce1` (or the client id), so it is stable for the session. -/
theorem subscribe_extranonce1_props (cfg : ServerConfig) (dsha : List ℕ → List ℕ)
    (pool : VState) (c : ClientState) (msg_id : Option ℕ) (ps : List String)
    (hlen : 8 ≤ c.client_id.data.length)
    (hhex : ∀ ch ∈ c.client_id.data.take 8, (hexDigitVal? ch).isSome = true) :
    (process_message cfg dsha pool c msg_id (Msg.subscribe ps) =
      ({ c with subscribed := true,
                extranonce1 := some (strTake c.client_id 8 ++ "00"),
                extranonce2_size := some 4 },
       pool, [],
       some (Reply.subscribeResult msg_id (strTake c.client_id 8)
         (strTake c.client_id 8 ++ "00") 4))) ∧
    ((fromhex? (strTake c.client_id 8 ++ "00")).map List.length = some 5) ∧
    (∀ (msg_id2 : Option ℕ) (m : Msg), (∀ ps2, m ≠ Msg.subscribe ps2) →
      (process_message cfg dsha pool c msg_id2 m).1.extranonce1 = c.extranonce1) ∧
    (∀ (msg_id2 : Option ℕ) (m : Msg),
      (process_message cfg dsha pool c msg_id2 m).1.client_id = c.client_id) := by
  have htl : (c.client_id.data.take 8).length = 8 := by
    rw [List.length_take]
    omega
  refine ⟨rfl, ?_, ?_, ?_⟩
  · have hdata : (strTake c.client_id 8 ++ "00").data =
        c.client_id.data.take 8 ++ ['0', '0'] := rfl
    have hall : ∀ ch ∈ c.client_id.data.take 8 ++ ['0', '0'],
        (hexDigitVal? ch).isSome = true := by
      intro ch hch
      rcases List.mem_append.mp hch with hch | hch
      · exact hhex ch hch
      · have hch0 : ch = '0' := by simpa using hch
        subst hch0
        decide
    have hev : (c.client_id.data.take 8 ++ ['0', '0']).length % 2 = 0 := by
      rw [List.length_append, htl]
      decide
    obtain ⟨bs, hbs, hblen⟩ := fromhexAux_hex_length _ hall hev
    unfold fromhex?
    rw [hdata, hbs]
    show some bs.length = some 5
    rw [hblen, List.length_append, htl]
    decide
  · intro msg_id2 m hm
    cases m with
    | subscribe ps2 => exact absurd rfl (hm ps2)
    | authorize params =>
      simp only [process_message]
      split <;> rfl
    | submit params =>
      simp only [process_message]
      split
      · rfl
      · split
        · split
          · rfl
          · split <;> rfl
        · rfl
    | configure features mask? =>
      simp only [process_message]
      split <;> rfl
    | suggest_difficulty params => rfl
    | get_transactions => rfl
    | get_version => rfl
    | reconnect => rfl
    | unknown method => rfl
  · intro msg_id2 m
    cases m with
    | subscribe ps2 => rfl
    | authorize params =>
      simp only [process_message]
      split <;> rfl
    | submit params =>
      simp only [process_message]
      split
      · rfl
      · split
        · split
          · rfl
          · split <;> rfl
        · rfl
    | configure features mask? =>
      simp only [process_message]
      split <;> rfl
    | suggest_difficulty params => rfl
    | get_transactions => rfl
    | get_version => rfl
    | reconnect => rfl
    | unknown method => rfl

/-- C2 witness: the concrete client id the source's comment shows. -/
theorem subscribe_extranonce1_props_w :
    (process_message cfg0 dsha0 state0 client0 (some 1) (Msg.subscribe []) =
      ({ client0 with subscribed := true,
                      extranonce1 := some (strTake client0.client_id 8 ++ "00"),
                      extranonce2_size := some 4 },
       state0, [],
       some (Reply.subscribeResult (some 1) (strTake client0.client_id 8)
         (strTake client0.client_id 8 ++ "00") 4))) ∧
    ((fromhex? (strTake client0.client_id 8 ++ "00")).map List.length = some 5) ∧
    (∀ (msg_id2 : Option ℕ) (m : Msg), (∀ ps2, m ≠ Msg.subscribe ps2) →
      (process_message cfg0 dsha0 state0 client0 msg_id2 m).1.extranonce1 =
        client0.extranonce1) ∧
    (∀ (msg_id2 : Option ℕ) (m : Msg),
      (process_message cfg0 dsha0 state0 client0 msg_id2 m).1.client_id =
        client0.client_id) :=
  subscribe_extranonce1_props cfg0 dsha0 state0 client0 (some 1) []
    (by decide) (by decide)

/-- C2 counterexample: for the session id `bf3796c2` the assigned
`extranonce1` is ten hex digits (five bytes), so its byte length plus
`extranonce2_size = 4` is nine, not eight. -/
theorem subscribe_extranonce1_nine_bytes_cex :
    process_message cfg0 dsha0 state0 client0 (some 1) (Msg.subscribe []) =
      ({ client0 with subscribed := true, extranonce1 := some "bf3796c200",
                      extranonce2_size := some 4 },
       state0, [], some (Reply.subscribeResult (some 1) "bf3796c2" "bf3796c200" 4)) ∧
    (fromhex? "bf3796c200").map List.length = some 5 ∧ (5 : ℕ) + 4 ≠ 8 := by
  exact ⟨by decide, by decide, by decide⟩

/-- C3: evaluating `calculate_merkle_branches` on a template with a
single transaction yields an empty branch list (length 0, where a branch
counting the coinbase would have length `ceil(log2 2) = 1`), and on two
transactions a single element (where the coinbase-counting branch would
have length `ceil(log2 3) = 2`): the level list is built from the
non-coinbase transactions only, so the level pairing the coinbase is
missing. -/
theorem merkle_branches_drop_coinbase_level :
    (calculate_merkle_branches dsha0 [txA]).map List.length = some 0 ∧
    (calculate_merkle_branches dsha0 [txA, txB]).map List.length = some 1 := by
  exact ⟨by decide, by decide⟩

/-- C4 counterexample: for a template whose height differs from the
current block (an insert with `clean_jobs = true`), the `mining.notify`
built by `broadcast_jobs` still carries `false` as its ninth
parameter. -/
theorem broadcast_clean_false_cex :
    template_height_changed (some tmpl0) tmplA = true ∧
    (create_stratum_job dsha0 spk0 1700000000 500 "x" (Q.ofNat 1) tmplA 2).map
        (fun j => (j.clean_jobs, (broadcast_notify_params j).clean_jobs)) =
      some (true, false) := by
  exact ⟨rfl, by decide⟩

/-- C4 (amended): every job `create_stratum_job` builds has
`clean_jobs = true` (whether or not the height changed), and
`Pool.send_job_to_miner`'s notify carries that value; but the
`mining.notify` frames `StratumServer.broadcast_jobs` sends carry the
hard-coded ninth parameter `false`. -/
theorem create_job_clean_true_broadcast_false (dsha : List ℕ → List ℕ)
    (spk : String → String) (now nsec : ℕ) (pool_address : String)
    (stratum_difficulty : Q) (template : Template) (job_id : ℕ) (job : Job)
    (h : create_stratum_job dsha spk now nsec pool_address stratum_difficulty
        template job_id = some job) :
    job.clean_jobs = true ∧ (send_job_params job).clean_jobs = true ∧
      (broadcast_notify_params job).clean_jobs = false := by
  unfold create_stratum_job at h
  cases h1 : create_coinbase_tx spk now nsec template.height template.coinbasevalue
      pool_address with
  | none => rw [h1] at h; exact absurd h (by simp)
  | some cb =>
    simp only [h1] at h
    cases h2 : calculate_merkle_branches dsha template.transactions with
    | none => rw [h2] at h; exact absurd h (by simp)
    | some mb =>
      simp only [h2, Option.some.injEq] at h
      subst h
      exact ⟨rfl, rfl, rfl⟩

/-- C4 witness: the concrete job built for `tmplA`. -/
theorem create_job_clean_true_broadcast_false_w :
    ((create_stratum_job dsha0 spk0 1700000000 500 "x" (Q.ofNat 1) tmplA 2).getD jdef).clean_jobs = true ∧
    (send_job_params ((create_stratum_job dsha0 spk0 1700000000 500 "x" (Q.ofNat 1) tmplA 2).getD jdef)).clean_jobs = true ∧
    (broadcast_notify_params ((create_stratum_job dsha0 spk0 1700000000 500 "x" (Q.ofNat 1) tmplA 2).getD jdef)).clean_jobs = false :=
  create_job_clean_true_broadcast_false dsha0 spk0 1700000000 500 "x" (Q.ofNat 1)
    tmplA 2 _ (by decide)

/-- C5 counterexample: `MAX_TARGET` is `bits_to_target("1d00ffff")`
(`0x00ffff * 2 ^ 208`), yet `difficulty_to_target(7)` differs from
`floor(MAX_TARGET / 7)`: the float quotient keeps only 53 significant
bits before `int()` truncates it. -/
theorem difficulty_to_target_seven_cex :
    bits_to_target? "1d00ffff" = some (Q.ofNat (65535 * 2 ^ 208)) ∧
    difficulty_to_target (Q.ofNat 7) ≠ 65535 * 2 ^ 208 / 7 := by
  exact ⟨by decide, by decide⟩

/-- C5 (amended): for every difficulty `d ≤ 0` the target is
`2 ^ 256 - 1`; for every `d > 0` the result is the truncated binary64
quotient `MAX_TARGET / d`, clamped so that it never exceeds
`MAX_TARGET = 0x00ffff * 2 ^ 208`; and `difficulty_to_target(1.0)`
equals `bits_to_target("1d00ffff")` exactly (the quotient is exact at
`d = 1`, but not for general `d`, e.g. `d = 7`). -/
theorem difficulty_to_target_amended :
    (∀ d : Q, d ≤ Q.ofNat 0 → difficulty_to_target d = 2 ^ 256 - 1) ∧
    (∀ d : Q, Q.ofNat 0 < d → difficulty_to_target d ≤ 65535 * 2 ^ 208) ∧
    Q.ofNat (difficulty_to_target (Q.ofNat 1)) =
      (bits_to_target? "1d00ffff").getD (Q.ofNat 0) := by
  refine ⟨?_, ?_, by decide⟩
  · intro d hd
    unfold difficulty_to_target
    rw [if_pos hd]
  · intro d hd
    have hd' : (0 : ℤ) * (d.den : ℤ) < d.num * ((1 : ℕ) : ℤ) := hd
    have hnle : ¬ d ≤ Q.ofNat 0 := fun hle =>
      absurd (hle : d.num * ((1 : ℕ) : ℤ) ≤ (0 : ℤ) * (d.den : ℤ)) (not_le.mpr hd')
    unfold difficulty_to_target
    rw [if_neg hnle]
    dsimp only
    have hmt : ((0x1d00ffff : ℕ) &&& 0x00ffffff) *
        2 ^ (8 * (((0x1d00ffff : ℕ) >>> 24 &&& 0xff) - 3)) = 65535 * 2 ^ 208 := by
      decide
    rw [hmt]
    split
    · exact le_refl _
    · split
      · exact le_refl _
      · next hclamp => omega

/-- C5 witness: the two hypotheses discharged at `d = -1` and `d = 7`. -/
theorem difficulty_to_target_amended_w :
    difficulty_to_target (Q.ofInt (-1)) = 2 ^ 256 - 1 ∧
    difficulty_to_target (Q.ofNat 7) ≤ 65535 * 2 ^ 208 :=
  ⟨difficulty_to_target_amended.1 (Q.ofInt (-1)) (by decide),
   difficulty_to_target_amended.2.1 (Q.ofNat 7) (by decide)⟩

/-- C6 counterexample: `ser_number 65536` emits the tag byte `0x03`
followed by four little-endian bytes, not the minimal three-byte payload
the claim describes. -/
theorem ser_number_65536_cex :
    ser_number 65536 = some [0x03, 0x00, 0x00, 0x01, 0x00] ∧
    spec_ser_number 65536 = [0x03, 0x00, 0x00, 0x01] ∧
    ser_number 65536 ≠ some (spec_ser_number 65536) := by
  exact ⟨by decide, by decide, by decide⟩

/-- C6 (amended): `ser_number` agrees with the claimed minimal
`[len][LE bytes]` form exactly for `n < 65536`; above that the leading
byte is a range tag (`0x03` with a 4-byte payload up to `2 ^ 32 - 1`,
`0x04` with an 8-byte payload up to `2 ^ 64 - 1`), not the payload
length. -/
theorem ser_number_amended :
    (∀ n : ℕ, n < 65536 → ser_number n = some (spec_ser_number n)) ∧
    (∀ n : ℕ, 65536 ≤ n → n ≤ 0xffffffff → ser_number n = some (0x03 :: leBytes 4 n)) ∧
    (∀ n : ℕ, 0xffffffff < n → n ≤ 0xffffffffffffffff →
      ser_number n = some (0x04 :: leBytes 8 n)) := by
  refine ⟨?_, ?_, ?_⟩
  · intro n hn
    by_cases h0 : n < 1
    · have hz : n = 0 := by omega
      subst hz
      decide
    · unfold ser_number spec_ser_number
      rw [if_neg h0, if_neg (show ¬ (n = 0) by omega)]
      by_cases h1 : n ≤ 0xff
      · rw [if_pos h1, if_pos h1]
        have hb : leBytes 1 n = [n] := by
          have h2 : leBytes 1 n = [n % 256] := rfl
          rw [h2, Nat.mod_eq_of_lt (show n < 256 by omega)]
        rw [hb]
      · rw [if_neg h1, if_neg h1, if_pos (show n ≤ 0xffff by omega),
          if_pos (show n ≤ 0xffff by omega)]
  · intro n h1 h2
    unfold ser_number
    rw [if_neg (by omega), if_neg (by omega), if_neg (by omega), if_pos h2]
  · intro n h1 h2
    unfold ser_number
    rw [if_neg (by omega), if_neg (by omega), if_neg (by omega), if_neg (by omega),
      if_pos h2]

/-- C6 witness: the hypotheses discharged at `n = 300` and `n = 70000`. -/
theorem ser_number_amended_w :
    ser_number 300 = some (spec_ser_number 300) ∧
    ser_number 70000 = some (0x03 :: leBytes 4 70000) :=
  ⟨ser_number_amended.1 300 (by decide),
   ser_number_amended.2.1 70000 (by decide) (by decide)⟩

end MiningPool
